import Mathlib

/-!
Verification development for the go-serum library.

The Go sources are embedded shallowly:

* Go strings are modelled as `List Char` (`GoStr`); Go's byte-wise operations
  coincide with character-wise operations on the inputs of this development.
* Go slices that may be `nil` are modelled as `Option (List _)` (`none` = nil).
* A Go panic is modelled as the `none` / `Except.error` branch of the result.
* JSON wire data is modelled by the inductive `Json`; JSON objects carry their
  members as an ordered association list, matching the order-preserving
  encoder and the token-stream decoder of the source.

Definitions keep the source names where possible.  Two package-scope accessors
(`Message`, `Cause`) are referenced by the provided sources but not defined in
them; they are modelled from the spec and marked as such.
-/

namespace Serum

/-- Go strings, modelled as lists of characters. -/
abbrev GoStr := List Char

/-- strings.HasPrefix: whether `pat` is a prefix of `s`. -/
def goStartsWith (s pat : GoStr) : Bool := s.take pat.length == pat

/-- Helper for `goIndex`: scan `s` left to right, returning the first offset
(counted from `i`) at which `pat` begins. -/
def goIndexFrom (pat : GoStr) : GoStr → Nat → Option Nat
  | s, i =>
    if goStartsWith s pat then some i
    else
      match s with
      | [] => none
      | _ :: rest => goIndexFrom pat rest (i + 1)

/-- strings.Index: the index of the first occurrence of `pat` in `s`
(`none` models Go's -1 result). -/
def goIndex (s pat : GoStr) : Option Nat := goIndexFrom pat s 0

/-- unicode.IsSpace restricted to the ASCII space characters (space, tab,
newline, vertical tab, form feed, carriage return); the templates in this
development contain no non-ASCII space. -/
def goIsSpace (c : Char) : Bool :=
  c = ' ' ∨ c = '\t' ∨ c = '\n' ∨ c = Char.ofNat 11 ∨ c = Char.ofNat 12 ∨ c = '\r'

/-- strings.TrimSpace: drop leading and trailing space characters. -/
def trimSpace (s : GoStr) : GoStr :=
  (((s.dropWhile goIsSpace).reverse).dropWhile goIsSpace).reverse

/-- The `parsed` struct of template.go: a template segment.  In the Go struct
both fields default to the empty string; a segment produced by the parser uses
exactly one of them (an empty marker body yields a segment with both empty). -/
structure Parsed where
  literal : GoStr := []
  interp : GoStr := []
  deriving DecidableEq

/-- parse, from template.go.  The Go `for` loop reassigns `s` and repeats; it
is embedded as recursion on the remainder of the string.  Go's
`strings.Index` result `-1` is modelled as `none`.  Note: this version of the
parser has no `|`-directive handling — the marker body is trimmed as a whole
and stored in `interp`. -/
def parse (s : GoStr) : List Parsed :=
  match goIndex s ('{' :: '{' :: []) with
  | none => [{ literal := s }]
  | some start =>
    match goIndex (s.drop (start + 2)) ('}' :: '}' :: []) with
    | none => [{ literal := s }]
    | some e =>
      (if start > 0 then [{ literal := s.take start }] else [])
        ++ (if e > 0 then [{ interp := trimSpace ((s.drop (start + 2)).take e) }] else [])
        ++ (if e = 0 then [{ literal := (s.drop start).take 4 }] else [])
        ++ (if h : s.drop (start + e + 4) = [] then [] else parse (s.drop (start + e + 4)))
termination_by s.length
decreasing_by
  simp only [List.length_drop]
  have hlen : ¬ s.length ≤ start + e + 4 := fun hle => h (List.drop_eq_nil_of_le hle)
  omega

/-- The linear table scan inside `interpolate`: first row whose key equals the
lookup key (the Go `for`/`break` loop). -/
def tableLookup (table : List (GoStr × GoStr)) (key : GoStr) : Option GoStr :=
  (table.find? (fun row => row.1 == key)).map Prod.snd

/-- interpolate, from template.go: emit literals verbatim; look interpolation
keys up in the table, emitting the matched value, or the marker wrapped around
the key when there is no match.  Segments whose fields are both empty emit
nothing. -/
def interpolate (ps : List Parsed) (table : List (GoStr × GoStr)) : GoStr :=
  ps.foldl
    (fun sb p =>
      (sb ++ (if p.literal ≠ [] then p.literal else []))
        ++ (if p.interp ≠ [] then
              match tableLookup table p.interp with
              | some v => v
              | none => ('{' :: '{' :: []) ++ p.interp ++ ('}' :: '}' :: [])
            else []))
    []

/-- The details capability of a foreign (non-canonical) error type.  In Go a
single type can have at most one method named `Details`, so the ordered
capability (`Details() [][2]string`) and the keyed capability
(`Details() map[string]string`) are mutually exclusive; this inductive makes
that explicit.  For the keyed capability, `entries` lists the map's entries in
the (runtime-chosen) iteration order; keys are distinct. -/
inductive DetailsCap : Type where
  | noCap : DetailsCap
  | ordered (l : Option (List (GoStr × GoStr))) : DetailsCap
  | mapped (entries : List (GoStr × GoStr)) : DetailsCap
  deriving DecidableEq

/-- The non-recursive description of a foreign error value: the result of its
`Error() string` method, its optional Serum capabilities, and the runtime type
information that `reflect` sees.  `elemOk` records whether
`reflect.TypeOf(v).Elem()` is defined for the value's dynamic type (true for
pointer, slice, array, map and channel kinds; false for value kinds such as
string, struct or integer, where `Elem()` panics).  `pkgBase` and `typeName`
are `path.Base(rt.PkgPath())` and `rt.Name()` of the element type. -/
structure ForeignShape where
  errString : GoStr
  codeCap : Option GoStr
  messageCap : Option GoStr
  detailsCap : DetailsCap
  elemOk : Bool
  pkgBase : GoStr
  typeName : GoStr
  deriving DecidableEq

/-- An error value as seen by this package: either the canonical
`*ErrorValue` (struct.go: fields `Code`, `Message`, `Details`, `Cause`) or a
foreign value.  For a foreign value, `unwrapCap` models the optional
`Unwrap() error` method: `none` = no method, `some none` = method returning
nil, `some (some e)` = method returning `e`. -/
inductive GoErr : Type where
  | canonical (code message : GoStr) (details : Option (List (GoStr × GoStr)))
      (cause : Option GoErr) : GoErr
  | foreign (shape : ForeignShape) (unwrapCap : Option (Option GoErr)) : GoErr

/-- Code, from the serum package.  A canonical value implements
`ErrorInterface`, as does a foreign value with the code capability; an empty
exposed code is replaced by the sentinel "?!".  Otherwise the code string is
synthesized from `reflect.TypeOf(err).Elem()`, which panics (modelled as
`none`) when the dynamic type's kind does not support `Elem()`. -/
def Code : GoErr → Option GoStr
  | .canonical c _ _ _ => some (if c = [] then '?' :: '!' :: [] else c)
  | .foreign sh _ =>
    match sh.codeCap with
    | some c => some (if c = [] then '?' :: '!' :: [] else c)
    | none =>
      if sh.elemOk then
        some ("bestguess-golang-".data ++ sh.pkgBase ++ ('-' :: []) ++ sh.typeName)
      else
        none

/-- Modelled from the spec: the package-scope `Message` accessor is referenced
by `ErrorValue.Is`, `Errorf` and `Standardize` in the provided sources, but its
definition is not among them.  Spec §4.3/§6: the value of the message
capability, empty if the capability is absent. -/
def Message : GoErr → GoStr
  | .canonical _ m _ _ => m
  | .foreign sh _ => sh.messageCap.getD []

/-- errors.Unwrap: call the `Unwrap() error` method if the dynamic type has
one, otherwise nil.  `ErrorValue.Unwrap` (struct.go) returns `Data.Cause`. -/
def goUnwrap : GoErr → Option GoErr
  | .canonical _ _ _ c => c
  | .foreign _ u => u.getD none

/-- Modelled from the spec: the package-scope `Cause` accessor is referenced by
`Errorf` and `Standardize` in the provided sources, but its definition is not
among them.  Spec §6: the unwrap capability is the cause accessor, absent
(nil) when the capability is missing — the same dispatch as `errors.Unwrap`. -/
def Cause (e : GoErr) : Option GoErr := goUnwrap e

/-- Go string `<`: byte-wise lexicographic comparison (character-wise here). -/
def goStrLt : GoStr → GoStr → Bool
  | _, [] => false
  | [], _ :: _ => true
  | a :: as, b :: bs => if a < b then true else if b < a then false else goStrLt as bs

/-- One insertion step of the sort used to model `sort.Sort(pairs(l))`. -/
def insertPair (p : GoStr × GoStr) : List (GoStr × GoStr) → List (GoStr × GoStr)
  | [] => [p]
  | q :: rest => if goStrLt p.1 q.1 then p :: q :: rest else q :: insertPair p rest

/-- sort.Sort with `pairs.Less` (`a[i][0] < a[j][0]`), modelled as insertion
sort: the result is sorted by key; Go's unstable sort is deterministic up to
the relative order of equal keys, and the inputs in this development make that
order unique. -/
def sortPairs (l : List (GoStr × GoStr)) : List (GoStr × GoStr) := l.foldr insertPair []

/-- Details, from the serum package.  The ordered capability is returned
as-is.  For the keyed capability the source does
`l := make([][2]string, len(m))` — a slice of `len(m)` zero pairs — and then
`append`s every map entry to it, so the sorted result keeps the zero pairs
(modelled by `List.replicate`).  `make` never returns nil, hence `some` even
for an empty map.  Without either capability the result is nil. -/
def Details : GoErr → Option (List (GoStr × GoStr))
  | .canonical _ _ d _ => d
  | .foreign sh _ =>
    match sh.detailsCap with
    | .ordered l => l
    | .mapped m => some (sortPairs (List.replicate m.length ([], []) ++ m))
    | .noCap => none

/-- SynthesizeString, from the serum package: the raw `Code()` method result
(no sentinel substitution), then ": " and the message when the message
capability is present and non-empty, then ": caused by: " and the cause's
`Error()` string when the unwrap capability yields a non-nil cause.  A
canonical cause's `Error()` is itself `SynthesizeString` (struct.go); a
foreign cause's is its own error string.  A foreign value without the code
capability cannot be passed to this function in Go (its parameter type is
`ErrorInterface`); that unreachable branch contributes the empty string. -/
def SynthesizeString : GoErr → GoStr
  | .canonical c m _ cause =>
    c ++ (if m ≠ [] then ':' :: ' ' :: m else [])
      ++ (match cause with
          | some cs =>
            ": caused by: ".data ++
              (match cs with
               | .canonical c2 m2 d2 cc2 => SynthesizeString (.canonical c2 m2 d2 cc2)
               | .foreign sh2 _ => sh2.errString)
          | none => [])
  | .foreign sh u =>
    (sh.codeCap.getD []) ++
      (match sh.messageCap with
       | some m => if m ≠ [] then ':' :: ' ' :: m else []
       | none => []) ++
      (match u with
       | some (some cs) =>
         ": caused by: ".data ++
           (match cs with
            | .canonical c2 m2 d2 cc2 => SynthesizeString (.canonical c2 m2 d2 cc2)
            | .foreign sh2 _ => sh2.errString)
       | _ => [])

/-- ErrorValue.Is, from struct.go: false when the package-scope codes differ,
false when the package-scope messages differ, true otherwise; details and
causes are not inspected.  `none` models a panic escaping from `Code`. -/
def Is (e target : GoErr) : Option Bool :=
  match Code e, Code target with
  | some c1, some c2 =>
    if c1 ≠ c2 then some false
    else if Message e ≠ Message target then some false
    else some true
  | _, _ => none

/-- WithConstruction, from template.go: the option carrier for the `Error`
constructor.  Field defaults are the Go zero values (`msgTemplate` is a nil
slice). -/
structure WithConstruction where
  msgLiteral : GoStr := []
  msgTemplate : Option (List Parsed) := none
  detailKey : GoStr := []
  detailValue : GoStr := []
  cause : Option GoErr := none

/-- WithMessageTemplate, from template.go: the template is parsed when the
option is constructed. -/
def WithMessageTemplate (tmpl : GoStr) : WithConstruction :=
  { msgTemplate := some (parse tmpl) }

/-- WithMessageLiteral, from template.go. -/
def WithMessageLiteral (s : GoStr) : WithConstruction :=
  { msgLiteral := s }

/-- WithDetail, from template.go. -/
def WithDetail (key value : GoStr) : WithConstruction :=
  { detailKey := key, detailValue := value }

/-- The state accumulated by the loop in the `Error` constructor: the fields
of the record under construction plus the deferred template option
(`var doLast WithConstruction`, zero-valued initially). -/
structure ErrorBuildState where
  message : GoStr
  details : Option (List (GoStr × GoStr))
  cause : Option GoErr
  doLast : WithConstruction

/-- One iteration of the `switch` in the `Error` constructor (template.go):
a non-empty literal overwrites the message; a non-nil template is deferred
into `doLast`; a non-empty detail key is appended to the details (appending to
a nil slice yields a non-nil one); a non-nil cause overwrites the cause; an
option with none of these set does nothing. -/
def applyParam (st : ErrorBuildState) (param : WithConstruction) : ErrorBuildState :=
  if param.msgLiteral ≠ [] then { st with message := param.msgLiteral }
  else if param.msgTemplate.isSome then { st with doLast := param }
  else if param.detailKey ≠ [] then
    { st with details := some ((st.details.getD []) ++ [(param.detailKey, param.detailValue)]) }
  else if param.cause.isSome then { st with cause := param.cause }
  else st

/-- Error, from template.go: fold the options in order, then, if a template
option was seen, evaluate it last against the accumulated details (a nil
details slice ranges as empty). -/
def Error (ecode : GoStr) (params : List WithConstruction) : GoErr :=
  let st := params.foldl applyParam { message := [], details := none, cause := none, doLast := {} }
  match st.doLast.msgTemplate with
  | some t => .canonical ecode (interpolate t (st.details.getD [])) st.details st.cause
  | none => .canonical ecode st.message st.details st.cause

mutual

/-- The non-nil case of Standardize (template.go).  A `*ErrorValue` is
returned unchanged; any other value is copied into a fresh canonical record
from `Code`, `Message`, `Details` and the recursively standardized `Cause`.
`none` models the panic escaping from `Code` on a foreign value whose dynamic
type does not support `reflect` `Elem()`.  Standardize never returns nil for
non-nil input, so the nil/non-nil split of the source is carried by the
wrapper `Standardize` below. -/
def standardizeE : GoErr → Option GoErr
  | .canonical c m d cs => some (.canonical c m d cs)
  | .foreign sh u =>
    match Code (.foreign sh u) with
    | none => none
    | some c =>
      match standardizeUnwrap u with
      | none => none
      | some sc =>
        some (.canonical c (Message (.foreign sh u)) (Details (.foreign sh u)) sc)

/-- `Standardize(Cause(other))` for a foreign value with unwrap capability
`u`: `Cause` yields nil unless the capability returns a cause, and
standardizing nil is nil; the outer `Option` models a panic. -/
def standardizeUnwrap : Option (Option GoErr) → Option (Option GoErr)
  | some (some cs) => (standardizeE cs).map some
  | _ => some none

end

/-- Standardize, from template.go: nil in, nil out; otherwise `standardizeE`.
The outer `Option` models a panic (`none`); the inner one the returned
`ErrorInterface` (nil or canonical). -/
def Standardize : Option GoErr → Option (Option GoErr)
  | none => some none
  | some e => (standardizeE e).map some

/-- WithCause, from template.go: the given error is standardized when the
option is constructed; `none` models the panic propagating out. -/
def WithCause (c : Option GoErr) : Option WithConstruction :=
  (Standardize c).map (fun sc => { cause := sc })

/-- JSON wire values.  Objects carry their members in order, as written on
the wire; numbers are integral in this development's inputs. -/
inductive Json : Type where
  | str (s : GoStr)
  | num (n : Int)
  | bool (b : Bool)
  | null
  | arr (elems : List Json)
  | obj (members : List (GoStr × Json))

/-- The tokens produced by `encoding/json.Decoder.Token`: delimiters (as
`json.Delim`), strings, numbers, booleans and null.  Commas and colons are
consumed silently by `Token` and never appear in the stream. -/
inductive GoJsonToken : Type where
  | delim (c : Char)
  | str (s : GoStr)
  | num (n : Int)
  | boolean (b : Bool)
  | null
  deriving DecidableEq

mutual

/-- The token stream `Decoder.Token` yields for a JSON value. -/
def tokenize : Json → List GoJsonToken
  | .str s => [.str s]
  | .num n => [.num n]
  | .bool b => [.boolean b]
  | .null => [.null]
  | .arr xs => .delim '[' :: tokenizeArr xs ++ [.delim ']']
  | .obj ms => .delim '{' :: tokenizeObj ms ++ [.delim '}']

/-- Token stream of the elements of a JSON array. -/
def tokenizeArr : List Json → List GoJsonToken
  | [] => []
  | j :: rest => tokenize j ++ tokenizeArr rest

/-- Token stream of the members of a JSON object: each key arrives as a
string token, followed by the value's tokens. -/
def tokenizeObj : List (GoStr × Json) → List GoJsonToken
  | [] => []
  | (k, v) :: rest => .str k :: (tokenize v ++ tokenizeObj rest)

end

/-- The comparison `tok == '{'` from `pairs.UnmarshalJSON`.  `tok` has the
interface type `json.Token`; the untyped rune constant is converted to its
default type `rune` (int32) for the comparison, and two Go interface values
are equal only when their dynamic types are identical.  `Decoder.Token` yields
values of dynamic type `json.Delim`, `string`, `float64`, `bool` or nil —
never `rune` — so the comparison is false for every token the decoder can
produce. -/
def goTokenEqRune (_tok : GoJsonToken) (_c : Char) : Bool := false

/-- The `for` loop of `pairs.UnmarshalJSON`: stop at the closing `}` delimiter
(that comparison is between two `json.Delim` values and behaves normally);
otherwise the token is asserted to be a string key (an unchecked assertion —
any other token panics), the next token must be a string value, and the pair
is appended. -/
def pairsUnmarshalLoop : List GoJsonToken → List (GoStr × GoStr) →
    Except String (List (GoStr × GoStr))
  | [], _ => Except.error "unexpected EOF"
  | tok :: rest, acc =>
    if tok = .delim '}' then Except.ok acc
    else
      match tok with
      | .str key =>
        match rest with
        | [] => Except.error "unexpected EOF"
        | vtok :: rest2 =>
          match vtok with
          | .str value => pairsUnmarshalLoop rest2 (acc ++ [(key, value)])
          | _ =>
            Except.error "deserializing a serum error: only strings are permitted in details map values"
      | _ => Except.error "panic: interface conversion: token is not a string"

/-- pairs.UnmarshalJSON, from the json source file: read the first token and
require it to equal the rune `'{'` — see `goTokenEqRune`: that interface
comparison never holds, so every input, including a well-formed object, takes
the error branch. -/
def pairsUnmarshalJSON (j : Json) : Except String (List (GoStr × GoStr)) :=
  match tokenize j with
  | [] => Except.error "unexpected EOF"
  | tok :: rest =>
    if goTokenEqRune tok '{' then pairsUnmarshalLoop rest []
    else Except.error "deserializing a serum error: details field must be a map"

/-- Member lookup as `encoding/json` performs it when filling a struct: among
the members bearing the field's name, the last one wins.  (The stdlib also
matches field names case-insensitively as a fallback; the inputs of this
development use exact names only.) -/
def jsonField (ms : List (GoStr × Json)) (k : GoStr) : Option Json :=
  (ms.reverse.find? (fun kv => kv.1 == k)).map Prod.snd

/-- Decoding of one `string`-typed struct field by `encoding/json`: absent
field — zero value; string — taken as is; null — no effect (zero value);
anything else — an unmarshal type error. -/
def decodeStringField (ms : List (GoStr × Json)) (k : GoStr) : Except String GoStr :=
  match jsonField ms k with
  | none => Except.ok []
  | some (.str s) => Except.ok s
  | some .null => Except.ok []
  | some _ => Except.error "json: cannot unmarshal value into Go struct field of type string"

/-- Bound used for the decoder's termination: a member's value is smaller
than the object it belongs to. -/
theorem sizeOf_jsonField {ms : List (GoStr × Json)} {k : GoStr} {v : Json}
    (h : jsonField ms k = some v) : sizeOf v < sizeOf ms := by
  unfold jsonField at h
  obtain ⟨kv, hmem, hv⟩ : ∃ kv ∈ ms.reverse, kv.2 = v := by
    cases hfind : (ms.reverse.find? (fun kv => kv.1 == k)) with
    | none => simp [hfind] at h
    | some kv =>
      exact ⟨kv, List.mem_of_find?_eq_some hfind, by simpa [hfind] using h⟩
  have hmem' : kv ∈ ms := List.mem_reverse.mp hmem
  have h1 : sizeOf kv < sizeOf ms := List.sizeOf_lt_of_mem hmem'
  obtain ⟨k0, v0⟩ := kv
  subst hv
  simp only [Prod.mk.sizeOf_spec] at h1
  show sizeOf v0 < sizeOf ms
  omega

/-- ErrorValue.UnmarshalJSON, from the json source file, together with the
`encoding/json.Unmarshal` semantics for the target struct: the top level must
be an object (a JSON null leaves the zero-valued target untouched); `code` and
`message` are string fields; a present `details` member is decoded by
`pairs.UnmarshalJSON`; a present non-null `cause` member is decoded
recursively into a fresh `*ErrorValue` (null sets the pointer to nil).  On
success the four decoded fields are copied into the receiver. -/
def UnmarshalJSON : Json → Except String GoErr
  | .obj ms =>
    match decodeStringField ms ('c' :: 'o' :: 'd' :: 'e' :: []) with
    | .error e => .error e
    | .ok code =>
      match decodeStringField ms "message".data with
      | .error e => .error e
      | .ok message =>
        match (match jsonField ms "details".data with
               | none => Except.ok (none : Option (List (GoStr × GoStr)))
               | some dj => (pairsUnmarshalJSON dj).map some) with
        | .error e => .error e
        | .ok details =>
          match h : jsonField ms "cause".data with
          | none => .ok (.canonical code message details none)
          | some .null => .ok (.canonical code message details none)
          | some cj =>
            match UnmarshalJSON cj with
            | .error e => .error e
            | .ok cause => .ok (.canonical code message details (some cause))
  | .null => .ok (.canonical [] [] none none)
  | _ => .error "json: cannot unmarshal value into Go value of type struct"
termination_by j => sizeOf j
decreasing_by
  have := sizeOf_jsonField h
  simp only [Json.obj.sizeOf_spec]
  omega

/-- Lowercase hexadecimal digit, as used by `encoding/json`'s escaper. -/
def hexDigit (n : Nat) : Char :=
  if n < 10 then Char.ofNat ('0'.toNat + n) else Char.ofNat ('a'.toNat + (n - 10))

/-- The escaping `encoding/json` applies to one character of a string being
encoded (HTML escaping is on by default for an `Encoder`): quote and
backslash get a backslash; newline, carriage return and tab get their named
escapes; other control characters below 0x20 and the HTML-significant
characters become `\u00xx`; U+2028 and U+2029 become `\u202x`; everything
else passes through. -/
def escChar (c : Char) : GoStr :=
  if c = '"' then '\\' :: '"' :: []
  else if c = '\\' then '\\' :: '\\' :: []
  else if c = '\n' then '\\' :: 'n' :: []
  else if c = '\r' then '\\' :: 'r' :: []
  else if c = '\t' then '\\' :: 't' :: []
  else if c = '<' ∨ c = '>' ∨ c = '&' ∨ c.toNat < 0x20 then
    '\\' :: 'u' :: '0' :: '0' :: hexDigit (c.toNat / 16) :: hexDigit (c.toNat % 16) :: []
  else if c.toNat = 0x2028 ∨ c.toNat = 0x2029 then
    '\\' :: 'u' :: '2' :: '0' :: '2' :: hexDigit (c.toNat % 16) :: []
  else [c]

/-- The bytes `encoding/json` writes for a string value. -/
def jsonQuote (s : GoStr) : GoStr := '"' :: s.flatMap escChar ++ ['"']

/-- `json.Encoder.Encode` on a string value: the quoted string followed by a
newline (`Encode` always appends one). -/
def encodeStringToken (s : GoStr) : GoStr := jsonQuote s ++ ['\n']

/-- The member-writing loop of `pairs.marshalJSON`: a comma before every
member except the first, then the encoded key, a colon, and the encoded
value. -/
def pairsMarshalBody : Bool → List (GoStr × GoStr) → GoStr
  | _, [] => []
  | isFirst, p :: rest =>
    (if isFirst then [] else [','])
      ++ encodeStringToken p.1 ++ ':' :: encodeStringToken p.2
      ++ pairsMarshalBody false rest

/-- pairs.marshalJSON, from the json source file (the `ErrorValue` version,
which writes `a[i][0]` and `a[i][1]`): an opening brace, the members in the
order of the slice, a closing brace. -/
def pairsMarshalJSON (a : List (GoStr × GoStr)) : GoStr :=
  '{' :: pairsMarshalBody true a ++ ['}']

/-- ToJSON, from the json source file (the `ErrorValue` version), at the
level of the JSON value the written bytes denote.  Member order follows the
write order of the source: `code` from the `Code` accessor (whose panic on a
bad foreign value propagates, modelled as `none`); for a Serum value
(`ErrorInterface`, i.e. the code capability is present) a non-empty message
from the message capability, for a non-Serum value the `Error()` string
unconditionally; a `details` member whenever `Details` is non-nil, written in
slice order; a `cause` member whenever `errors.Unwrap` yields a non-nil,
non-empty cause, encoded by recursive application. -/
def ToJSON : GoErr → Option Json
  | .canonical c m d cause =>
    match Code (.canonical c m d cause) with
    | none => none
    | some codeStr =>
      match (match cause with
             | some cs => (ToJSON cs).map (fun cj => [("cause".data, cj)])
             | none => some []) with
      | none => none
      | some causeMembers =>
        some (Json.obj
          ((("code".data, Json.str codeStr)
              :: (if m ≠ [] then [("message".data, Json.str m)] else []))
            ++ (match Details (.canonical c m d cause) with
                | some l => [("details".data, Json.obj (l.map (fun p => (p.1, Json.str p.2))))]
                | none => [])
            ++ causeMembers))
  | .foreign sh u =>
    match Code (.foreign sh u) with
    | none => none
    | some codeStr =>
      match (match u with
             | some (some cs) => (ToJSON cs).map (fun cj => [("cause".data, cj)])
             | _ => some []) with
      | none => none
      | some causeMembers =>
        some (Json.obj
          ((("code".data, Json.str codeStr)
              :: (if sh.codeCap.isSome then
                    match sh.messageCap with
                    | some m => if m ≠ [] then [("message".data, Json.str m)] else []
                    | none => []
                  else [("message".data, Json.str sh.errString)]))
            ++ (match Details (.foreign sh u) with
                | some l => [("details".data, Json.obj (l.map (fun p => (p.1, Json.str p.2))))]
                | none => [])
            ++ causeMembers))

/-! Claim theorems. -/

set_option maxRecDepth 10000

/-- C1: decoding the encoding of a canonically-constructed record does not
reproduce it as soon as the record carries details — the record built by
`Error("x", WithDetail("a","1"))` encodes to the well-formed object
`\x7b"code":"x","details":\x7b"a":"1"\x7d\x7d`, and decoding that object
fails with the details-field error instead of returning the record, because
`pairs.UnmarshalJSON` compares its first `json.Token` with a rune and
therefore rejects every input. -/
theorem c1_roundtrip_fails_on_details :
    ToJSON (Error "x".data [WithDetail "a".data "1".data])
        = some (Json.obj [("code".data, Json.str "x".data),
            ("details".data, Json.obj [("a".data, Json.str "1".data)])])
      ∧ UnmarshalJSON (Json.obj [("code".data, Json.str "x".data),
            ("details".data, Json.obj [("a".data, Json.str "1".data)])])
          = Except.error "deserializing a serum error: details field must be a map" :=
  ⟨rfl, by rw [UnmarshalJSON]; rfl⟩

/-- C2 counterexample: two canonical records with the same code and message
but different causes.  `Is` holds of them, their best-effort codes agree, yet
their synthesized display strings differ — so `Is` is not equivalent to
(codes equal and synthesized strings equal) as the claim states. -/
theorem c2_counterexample_is_ignores_cause :
    Is (GoErr.canonical "c".data "m".data none
          (some (GoErr.canonical "d".data [] none none)))
        (GoErr.canonical "c".data "m".data none none) = some true
      ∧ Code (GoErr.canonical "c".data "m".data none
            (some (GoErr.canonical "d".data [] none none)))
          = Code (GoErr.canonical "c".data "m".data none none)
      ∧ SynthesizeString (GoErr.canonical "c".data "m".data none
            (some (GoErr.canonical "d".data [] none none)))
          ≠ SynthesizeString (GoErr.canonical "c".data "m".data none none) := by
  refine ⟨rfl, rfl, ?_⟩
  decide

/-- C2 (amended): whenever `Code` returns on both arguments, `Is` holds
exactly when the best-effort codes are equal and the best-effort messages are
equal; causes and details are not inspected. -/
theorem c2_is_iff_code_and_message (a b : GoErr) (ca cb : GoStr)
    (ha : Code a = some ca) (hb : Code b = some cb) :
    Is a b = some true ↔ (ca = cb ∧ Message a = Message b) := by
  unfold Is
  rw [ha, hb]
  by_cases hc : ca = cb
  · by_cases hm : Message a = Message b
    · simp [hc, hm]
    · simp [hc, hm]
  · simp [hc]

/-- C2 witness: the amended equivalence applied at two concrete records. -/
theorem c2_is_iff_code_and_message_witness :
    Is (GoErr.canonical "c".data "m".data none none)
        (GoErr.canonical "c".data "m".data none none) = some true
      ↔ ("c".data = "c".data
          ∧ Message (GoErr.canonical "c".data "m".data none none)
              = Message (GoErr.canonical "c".data "m".data none none)) :=
  c2_is_iff_code_and_message
    (GoErr.canonical "c".data "m".data none none)
    (GoErr.canonical "c".data "m".data none none)
    "c".data "c".data rfl rfl

/-- C3: the parser of template.go does not split a marker body on `|` — the
whole trimmed body is the lookup key, so a `q` directive is never recognized:
rendering `\x7b\x7bx|q\x7d\x7d` against `[("x","a b")]` leaves the marker
unresolved (lookup key "x|q") instead of producing the quoted form of "a b"
that the spec, the README and template_test.go (which expects a `process`
field the `parsed` struct does not have) require. -/
theorem c3_pipe_directive_ignored :
    parse "\x7b\x7bx|q\x7d\x7d".data = [{ interp := "x|q".data }]
      ∧ interpolate (parse "\x7b\x7bx|q\x7d\x7d".data) [("x".data, "a b".data)]
          = "\x7b\x7bx|q\x7d\x7d".data := by
  constructor
  · rw [parse]; decide
  · rw [parse]; decide

/-- C4: `Code` is not total on foreign errors.  For a foreign error of a
value (non-pointer) dynamic type — for example `syscall.Errno` — the fallback
path calls `reflect.TypeOf(err).Elem()`, which panics (`none`); the
best-effort path only succeeds for pointer-like dynamic types, and the
sentinel "?!" is produced for an exposed empty code as claimed. -/
theorem c4_code_panics_on_value_typed_error :
    Code (GoErr.foreign
        { errString := "oops".data, codeCap := none, messageCap := none,
          detailsCap := DetailsCap.noCap, elemOk := false,
          pkgBase := "syscall".data, typeName := "Errno".data } none) = none
      ∧ Code (GoErr.foreign
          { errString := "oops".data, codeCap := none, messageCap := none,
            detailsCap := DetailsCap.noCap, elemOk := true,
            pkgBase := "errors".data, typeName := "errorString".data } none)
          = some "bestguess-golang-errors-errorString".data
      ∧ Code (GoErr.canonical [] [] none none) = some ('?' :: '!' :: []) := by
  decide

/-- C5: for an error exposing only the keyed (map) details capability, the
source allocates `make([][2]string, len(m))` — `len(m)` zero pairs — and then
appends the map entries, so the sorted result carries one spurious empty pair
per map entry instead of exactly the map's entries: with the map
`{"a": "1"}` the result is `[("",""),("a","1")]`, not `[("a","1")]`. -/
theorem c5_mapped_details_padded_with_zero_pairs :
    Details (GoErr.foreign
        { errString := "boom".data, codeCap := some "fcode".data, messageCap := none,
          detailsCap := DetailsCap.mapped [("a".data, "1".data)], elemOk := true,
          pkgBase := "pkg".data, typeName := "T".data } none)
        = some [([], []), ("a".data, "1".data)]
      ∧ Details (GoErr.foreign
          { errString := "boom".data, codeCap := some "fcode".data, messageCap := none,
            detailsCap := DetailsCap.mapped [("a".data, "1".data)], elemOk := true,
            pkgBase := "pkg".data, typeName := "T".data } none)
          ≠ some [("a".data, "1".data)] := by
  decide

/-- C8: a well-formed canonical wire object whose `details` member is an
object of string values is rejected by the decoder: `pairs.UnmarshalJSON`
compares its first `json.Token` (dynamic type `json.Delim`) with the rune
`'\x7b'`, a comparison that is false for every token, so the details branch
always returns the map-shape error — decoding does not succeed on the shapes
the claim says it accepts. -/
theorem c8_decode_rejects_wellformed_details :
    UnmarshalJSON (Json.obj
        [("code".data, Json.str "again".data),
         ("message".data, Json.str "hello".data),
         ("details".data, Json.obj [("k".data, Json.str "v".data)])])
      = Except.error "deserializing a serum error: details field must be a map" := by
  rw [UnmarshalJSON]; rfl

/-- Helper for C9: whatever `standardizeE` returns is a canonical record
(`*ErrorValue`), which the source returns unchanged. -/
theorem standardizeE_shape (e e' : GoErr) (h : standardizeE e = some e') :
    ∃ c m d cs, e' = GoErr.canonical c m d cs := by
  cases e with
  | canonical c m d cs =>
    have h' : some (GoErr.canonical c m d cs) = some e' := h
    injection h' with h'
    exact ⟨c, m, d, cs, h'.symm⟩
  | foreign sh u =>
    have h' : (match Code (GoErr.foreign sh u) with
               | none => none
               | some c =>
                 match standardizeUnwrap u with
                 | none => none
                 | some sc =>
                   some (GoErr.canonical c (Message (GoErr.foreign sh u))
                     (Details (GoErr.foreign sh u)) sc)) = some e' := h
    cases hc : Code (GoErr.foreign sh u) with
    | none => rw [hc] at h'; exact absurd h' (by simp)
    | some c =>
      rw [hc] at h'
      cases hs : standardizeUnwrap u with
      | none => rw [hs] at h'; exact absurd h' (by simp)
      | some sc =>
        rw [hs] at h'
        injection h' with h'
        exact ⟨c, Message (GoErr.foreign sh u), Details (GoErr.foreign sh u), sc, h'.symm⟩

/-- C9: standardization is idempotent — whenever `Standardize x` returns a
result `r` (that is, does not panic), applying `Standardize` to `r` returns
the very same `r`: `r` is nil or a canonical record, and both are returned
unchanged by the source. -/
theorem c9_standardize_idempotent (x r : Option GoErr)
    (h : Standardize x = some r) : Standardize r = some r := by
  cases x with
  | none =>
    have h' : some (none : Option GoErr) = some r := h
    injection h' with h'
    subst h'
    rfl
  | some e =>
    have h' : (standardizeE e).map some = some r := h
    cases he : standardizeE e with
    | none => rw [he] at h'; exact absurd h' (by simp)
    | some e' =>
      rw [he] at h'
      simp only [Option.map] at h'
      injection h' with h'
      subst h'
      obtain ⟨c, m, d, cs, rfl⟩ := standardizeE_shape e e' he
      rfl

/-- C9 witness: idempotence applied to a concrete foreign error. -/
theorem c9_standardize_idempotent_witness :
    Standardize (some (GoErr.canonical "fcode".data "boom".data none none))
      = some (some (GoErr.canonical "fcode".data "boom".data none none)) :=
  c9_standardize_idempotent
    (some (GoErr.foreign
      { errString := "boom".data, codeCap := some "fcode".data,
        messageCap := some "boom".data, detailsCap := DetailsCap.noCap,
        elemOk := false, pkgBase := "pkg".data, typeName := "T".data } none))
    (some (GoErr.canonical "fcode".data "boom".data none none))
    rfl

/-- Helper for C6: after the first member, the loop writes a comma before
every member. -/
theorem pairsMarshalBody_false (ds : List (GoStr × GoStr)) :
    pairsMarshalBody false ds
      = (ds.map (fun p => ',' :: (encodeStringToken p.1 ++ ':' :: encodeStringToken p.2))).flatten := by
  induction ds with
  | nil => rfl
  | cons p rest ih => simp [pairsMarshalBody, ih]

/-- Helper for C6: joining with a separator, spelled out. -/
theorem intercalate_cons_flatten (sep x : GoStr) (xs : List GoStr) :
    List.intercalate sep (x :: xs) = x ++ (xs.map (fun y => sep ++ y)).flatten := by
  induction xs generalizing x with
  | nil => simp [List.intercalate]
  | cons y ys ih =>
    have h1 : List.intercalate sep (x :: y :: ys)
        = x ++ sep ++ List.intercalate sep (y :: ys) := by
      simp [List.intercalate, List.intersperse]
    rw [h1, ih]
    simp

/-- C6: the encoder preserves detail order.  The member list of the encoded
details object is exactly the details sequence, joined in order: for the
details `[("b","2"),("a","1")]` the emitted bytes are `\x7b`, the member
`"b"` : `"2"`, a comma, the member `"a"` : `"1"`, `\x7d` (each string is
followed by the newline `json.Encoder.Encode` appends) — "b" strictly before
"a", not sorted; and in general the members appear in the order of the
details list. -/
theorem c6_detail_order_preserved :
    pairsMarshalJSON [("b".data, "2".data), ("a".data, "1".data)]
        = "\x7b\"b\"\n:\"2\"\n,\"a\"\n:\"1\"\n\x7d".data
      ∧ ∀ ds : List (GoStr × GoStr),
          pairsMarshalJSON ds
            = '{' :: List.intercalate [',']
                (ds.map (fun p => encodeStringToken p.1 ++ ':' :: encodeStringToken p.2))
                ++ ['}'] := by
  constructor
  · decide
  · intro ds
    cases ds with
    | nil => rfl
    | cons p rest =>
      rw [List.map_cons, intercalate_cons_flatten]
      show '{' :: (([] : GoStr)
          ++ (encodeStringToken p.1 ++ ':' :: encodeStringToken p.2
              ++ pairsMarshalBody false rest)) ++ ['}'] = _
      rw [pairsMarshalBody_false]
      simp
      rfl

/-- The details list accumulated by the `Error` constructor from a run of
`WithDetail` options: each pair with a non-empty key is appended (appending
to a nil slice makes it non-nil); pairs with an empty key are skipped by the
option switch. -/
def goDetailsAcc (d : Option (List (GoStr × GoStr))) (l : List (GoStr × GoStr)) :
    Option (List (GoStr × GoStr)) :=
  l.foldl (fun acc p => if p.1 ≠ [] then some (acc.getD [] ++ [p]) else acc) d

/-- Helper for C7: applying one `WithDetail` option touches only the details
of the build state. -/
theorem applyParam_withDetail (st : ErrorBuildState) (k v : GoStr) :
    applyParam st (WithDetail k v)
      = { st with details := if k ≠ [] then some ((st.details.getD []) ++ [(k, v)]) else st.details } := by
  by_cases hk : k = []
  · simp [applyParam, WithDetail, hk]
  · simp [applyParam, WithDetail, hk]

/-- Helper for C7: a run of `WithDetail` options folds to a pure details
update. -/
theorem foldl_withDetails (l : List (GoStr × GoStr)) (st : ErrorBuildState) :
    (l.map (fun p => WithDetail p.1 p.2)).foldl applyParam st
      = { st with details := goDetailsAcc st.details l } := by
  induction l generalizing st with
  | nil => rfl
  | cons p rest ih =>
    rw [List.map_cons, List.foldl_cons, applyParam_withDetail, ih]
    by_cases hk : p.1 = []
    · simp [goDetailsAcc, hk]
    · simp [goDetailsAcc, hk]

/-- Helper for C7: applying a template option stores it in `doLast` and
touches nothing else. -/
theorem applyParam_withTemplate (st : ErrorBuildState) (t : GoStr) :
    applyParam st (WithMessageTemplate t) = { st with doLast := WithMessageTemplate t } := by
  simp [applyParam, WithMessageTemplate]

/-- C7: the templated message is evaluated last.  For any split of the detail
options around the template option, the constructed record's message is the
template rendered against the details accumulated from all detail options,
and the record is independent of where the template option sits among them. -/
theorem c7_template_evaluated_last (code t : GoStr) (l1 l2 : List (GoStr × GoStr)) :
    Error code ((l1.map fun p => WithDetail p.1 p.2)
        ++ WithMessageTemplate t :: (l2.map fun p => WithDetail p.1 p.2))
      = GoErr.canonical code
          (interpolate (parse t) ((goDetailsAcc none (l1 ++ l2)).getD []))
          (goDetailsAcc none (l1 ++ l2)) none := by
  have h2 : goDetailsAcc none (l1 ++ l2) = goDetailsAcc (goDetailsAcc none l1) l2 := by
    simp [goDetailsAcc, List.foldl_append]
  rw [h2]
  unfold Error
  rw [List.foldl_append, foldl_withDetails, List.foldl_cons, applyParam_withTemplate,
    foldl_withDetails]
  rfl

/-- Helper for C10: a space character is not a closing brace. -/
theorem goIsSpace_ne_rbrace {c : Char} (h : goIsSpace c = true) : c ≠ '}' := by
  simp only [goIsSpace, decide_eq_true_eq] at h
  rcases h with h | h | h | h | h | h <;> subst h <;> decide

/-- Helper for C10: a string headed by a non-brace character does not start
with the closing marker. -/
theorem goStartsWith_rbrace_false {c : Char} (hc : c ≠ '}') (rest : GoStr) :
    goStartsWith (c :: rest) ('}' :: '}' :: []) = false := by
  simp only [goStartsWith, List.take]
  rw [beq_eq_false_iff_ne]
  intro h
  injection h with h1 _
  exact hc h1

/-- Helper for C10: scanning a run of space characters followed by the
closing marker finds the marker right after the run. -/
theorem goIndexFrom_rbrace_spaces (ws : GoStr) (h : ∀ c ∈ ws, goIsSpace c) :
    ∀ i, goIndexFrom ('}' :: '}' :: []) (ws ++ '}' :: '}' :: []) i = some (i + ws.length) := by
  induction ws with
  | nil =>
    intro i
    have hsw : goStartsWith ('}' :: '}' :: ([] : GoStr)) ('}' :: '}' :: []) = true := by decide
    rw [List.nil_append, goIndexFrom, hsw]
    simp
  | cons c ws' ih =>
    intro i
    have hc : goIsSpace c = true := h c (List.mem_cons_self c ws')
    have hsw := goStartsWith_rbrace_false (goIsSpace_ne_rbrace hc) (ws' ++ '}' :: '}' :: [])
    rw [List.cons_append, goIndexFrom, hsw]
    simp only [Bool.false_eq_true, if_false]
    rw [ih (fun d hd => h d (List.mem_cons_of_mem c hd)) (i + 1)]
    simp only [List.length_cons]
    congr 1
    omega

/-- Helper for C10: trimming a string of space characters leaves nothing. -/
theorem trimSpace_all_space {ws : GoStr} (h : ∀ c ∈ ws, goIsSpace c) :
    trimSpace ws = [] := by
  have h1 : ws.dropWhile goIsSpace = [] := List.dropWhile_eq_nil_iff.mpr h
  simp [trimSpace, h1]

/-- C10: a marker whose body is whitespace only parses to a segment with an
empty lookup key (both fields empty), which renders to nothing against any
table — the marker disappears from the output; the empty marker `\x7b\x7b\x7d\x7d`,
by contrast, is kept as a four-character literal and survives rendering
verbatim. -/
theorem c10_whitespace_marker_vanishes (ws : GoStr) (table : List (GoStr × GoStr))
    (h1 : ws ≠ []) (h2 : ∀ c ∈ ws, goIsSpace c) :
    parse ('{' :: '{' :: (ws ++ '}' :: '}' :: [])) = [{ literal := [], interp := [] }]
      ∧ interpolate (parse ('{' :: '{' :: (ws ++ '}' :: '}' :: []))) table = []
      ∧ interpolate (parse "\x7b\x7b\x7d\x7d".data) table = "\x7b\x7b\x7d\x7d".data := by
  have hparse : parse ('{' :: '{' :: (ws ++ '}' :: '}' :: [])) = [{ literal := [], interp := [] }] := by
    rw [parse]
    have hopen : goIndex ('{' :: '{' :: (ws ++ '}' :: '}' :: [])) ('{' :: '{' :: []) = some 0 := rfl
    have hclose : goIndex (('{' :: '{' :: (ws ++ '}' :: '}' :: [])).drop (0 + 2)) ('}' :: '}' :: [])
        = some ws.length := by
      show goIndexFrom ('}' :: '}' :: []) (ws ++ '}' :: '}' :: []) 0 = some ws.length
      rw [goIndexFrom_rbrace_spaces ws h2 0]
      simp
    simp only [hopen, hclose]
    have hlen : 0 < ws.length := List.length_pos.mpr h1
    have htake : (('{' :: '{' :: (ws ++ '}' :: '}' :: [])).drop (0 + 2)).take ws.length = ws := by
      show (ws ++ '}' :: '}' :: []).take ws.length = ws
      exact List.take_left' rfl
    have hdropAll : ('{' :: '{' :: (ws ++ '}' :: '}' :: [])).drop (0 + ws.length + 4) = [] := by
      apply List.drop_eq_nil_of_le
      simp only [List.length_cons, List.length_append, List.length_nil]
      omega
    rw [htake, trimSpace_all_space h2, dif_pos hdropAll, if_neg (by omega : ¬ ((0 : Nat) > 0)),
      if_pos hlen, if_neg (by omega : ¬ ws.length = 0)]
    rfl
  refine ⟨hparse, ?_, ?_⟩
  · show interpolate (parse ('{' :: '{' :: (ws ++ '}' :: '}' :: []))) table = []
    rw [hparse]
    rfl
  · show interpolate (parse "\x7b\x7b\x7d\x7d".data) table = "\x7b\x7b\x7d\x7d".data
    have hp : parse "\x7b\x7b\x7d\x7d".data = [{ literal := "\x7b\x7b\x7d\x7d".data }] := by
      rw [parse]; decide
    rw [hp]
    rfl

/-- C10 witness: the theorem applied at the single-space marker and a
one-row table. -/
theorem c10_whitespace_marker_vanishes_witness :
    parse ('{' :: '{' :: ((' ' :: []) ++ '}' :: '}' :: [])) = [{ literal := [], interp := [] }]
      ∧ interpolate (parse ('{' :: '{' :: ((' ' :: []) ++ '}' :: '}' :: [])))
          [("k".data, "v".data)] = []
      ∧ interpolate (parse "\x7b\x7b\x7d\x7d".data) [("k".data, "v".data)]
          = "\x7b\x7b\x7d\x7d".data :=
  c10_whitespace_marker_vanishes (' ' :: []) [("k".data, "v".data)] (by decide)
    (by intro c hc; simp at hc; subst hc; decide)

end Serum
